import Mathlib

/-!
Verification development for the `0perator` evaluation harness
(`eval/eval.py`).  The Python source is shallowly embedded: strings are
lists of characters, the agent-engine message stream is a list of message
records, filesystem and process effects (directory removal, sleeping,
changing directory) are recorded as explicit event traces.
-/

namespace OperatorEval

/-- Characters of a Python string. -/
abbrev Str := List Char

/-- Embedding of Python `str.strip()`: remove leading and trailing
whitespace characters. -/
def stripChars (cs : Str) : Str :=
  ((cs.dropWhile Char.isWhitespace).reverse.dropWhile Char.isWhitespace).reverse

/-- Index of the first occurrence of `pat` in `s`, if any
(`pat = s[i .. i + pat.length)` for the least such `i`). -/
def firstOcc (pat : Str) : Str → Option Nat
  | [] => if pat = [] then some 0 else none
  | c :: rest =>
    if (c :: rest).take pat.length = pat then some 0
    else (firstOcc pat rest).map (· + 1)

/-- One attempt of the regex `opn(.*?)cls` anchored at the start of `s`:
the literal `opn` must match here, and the lazy group extends to the
nearest following occurrence of `cls`. -/
def tryMatchAt (opn cls s : Str) : Option Str :=
  if s.take opn.length = opn then
    (firstOcc cls (s.drop opn.length)).map (fun j => (s.drop opn.length).take j)
  else none

/-- Embedding of `re.search(opn + "(.*?)" + cls, s, re.DOTALL).group(1)`:
leftmost match wins; at the leftmost matching position the lazy group is
as short as possible.  `re.DOTALL` lets the group span newlines, which the
character-list embedding does by construction. -/
def searchLazy (opn cls : Str) : Str → Option Str
  | [] => tryMatchAt opn cls []
  | c :: rest =>
    match tryMatchAt opn cls (c :: rest) with
    | some g => some g
    | none => searchLazy opn cls rest

def summaryOpen : Str := "<summary>".toList
def summaryClose : Str := "</summary>".toList
def feedbackOpen : Str := "<feedback>".toList
def feedbackClose : Str := "</feedback>".toList
def responseOpen : Str := "<response>".toList
def responseClose : Str := "</response>".toList

/-- Embedding of `extract_tagged_sections` (`eval.py` lines 244-254):
three independent lazy regex searches, each matched group stripped;
`None` when a pattern does not match. -/
def extract_tagged_sections (content : Str) :
    Option Str × Option Str × Option Str :=
  ((searchLazy summaryOpen summaryClose content).map stripChars,
   (searchLazy feedbackOpen feedbackClose content).map stripChars,
   (searchLazy responseOpen responseClose content).map stripChars)

/-- Specification-side reading of the claims: the text strictly between
the first occurrence of the opening tag and the nearest subsequent
occurrence of the closing tag; `none` when that delimiter pair does not
appear. -/
def betweenFirstPair (opn cls s : Str) : Option Str :=
  match firstOcc opn s with
  | none => none
  | some i =>
    (firstOcc cls (s.drop (i + opn.length))).map
      (fun j => (s.drop (i + opn.length)).take j)

/-- Specification-side version of `extract_tagged_sections`, written from
the claim text (first opening tag, nearest subsequent closing tag,
trimmed). -/
def specExtract (content : Str) : Option Str × Option Str × Option Str :=
  ((betweenFirstPair summaryOpen summaryClose content).map stripChars,
   (betweenFirstPair feedbackOpen feedbackClose content).map stripChars,
   (betweenFirstPair responseOpen responseClose content).map stripChars)

/-- The three tagged section names. -/
inductive TagName where
  | summary
  | feedback
  | response
deriving DecidableEq

def openTagOf : TagName → Str
  | TagName.summary => summaryOpen
  | TagName.feedback => feedbackOpen
  | TagName.response => responseOpen

def closeTagOf : TagName → Str
  | TagName.summary => summaryClose
  | TagName.feedback => feedbackClose
  | TagName.response => responseClose

/-- Project the component of the extraction result belonging to a tag. -/
def sectionOf : TagName → Option Str × Option Str × Option Str → Option Str
  | TagName.summary, t => t.1
  | TagName.feedback, t => t.2.1
  | TagName.response, t => t.2.2

/-- Decimal rendering of a natural number, as Python does in f-strings. -/
def natStr (n : Nat) : Str := (toString n).toList

/-- Value of one readable message attribute, as classified by
`add_message_to_transcript` (`eval.py` lines 47-56): scalars
(`str`/`int`/`float`/`bool`) carry their rendered form, lists carry each
item's `str()` form, dicts carry their `json.dumps` rendering, anything
else carries its `str()` form. -/
inductive PyValue where
  | scalar (rendered : Str)
  | pylist (items : List Str)
  | pydict (dump : Str)
  | other (rendered : Str)
deriving DecidableEq

/-- Outcome of `getattr(message, attr_name)` in the transcript loop:
the value is `None` (skipped), a readable value, or the read raised and
the exception's message is recorded. -/
inductive AttrRead where
  | isNone
  | ok (v : PyValue)
  | err (msg : Str)
deriving DecidableEq

/-- One name produced by `dir(message)`, with whether it is callable and
what reading it yields. -/
structure Attr where
  name : Str
  isCallable : Bool
  read : AttrRead
deriving DecidableEq

/-- Python `attr_name.startswith(single underscore)`. -/
def startsUnderscore : Str → Bool
  | '_' :: _ => true
  | _ => false

/-- One content block of a message: the `text` attribute when present,
and whether the block has an `id` attribute (tool-use blocks do). -/
structure ContentBlock where
  text : Option Str
  hasId : Bool
deriving DecidableEq

/-- One message from the engine stream.  `typeName` and `attrs` are what
the transcript recorder sees via introspection; `result` is the string
value of a `result` attribute when the message has one, and `content` is
the content-block list when the message has one (`none` also stands for
a non-list `content`, which the code ignores). -/
structure Message where
  typeName : Str
  attrs : List Attr
  result : Option Str
  content : Option (List ContentBlock)

/-- The inner rendering lines for a list attribute:
`  [i]: str(item)` for each item, indices from `i₀`. -/
def listItemLines : Nat → List Str → Str
  | _, [] => []
  | i, x :: xs =>
    "  [".toList ++ natStr i ++ "]: ".toList ++ x ++ ['\n'] ++ listItemLines (i + 1) xs

/-- Body of the `for attr_name in dir(message)` loop of
`add_message_to_transcript` (`eval.py` lines 41-58): appends the lines for
one attribute to the entry accumulated so far. -/
def addAttr (acc : Str) (a : Attr) : Str :=
  if !startsUnderscore a.name && !a.isCallable then
    match a.read with
    | AttrRead.isNone => acc
    | AttrRead.ok (PyValue.scalar s) => acc ++ a.name ++ ": ".toList ++ s ++ ['\n']
    | AttrRead.ok (PyValue.pylist items) =>
        acc ++ a.name ++ ": [".toList ++ natStr items.length ++ " items]\n".toList
            ++ listItemLines 0 items
    | AttrRead.ok (PyValue.pydict dump) => acc ++ a.name ++ ":\n".toList ++ dump ++ ['\n']
    | AttrRead.ok (PyValue.other s) => acc ++ a.name ++ ": ".toList ++ s ++ ['\n']
    | AttrRead.err e => acc ++ a.name ++ ": <error accessing: ".toList ++ e ++ ">\n".toList
  else acc

/-- Header line of a transcript entry. -/
def headerOf (n : Nat) (m : Message) : Str :=
  "=== Message ".toList ++ natStr n ++ ": ".toList ++ m.typeName ++ " ===\n".toList

/-- Trailing separator of a transcript entry: a blank line and eighty
equals signs. -/
def entryTail : Str := '\n' :: (List.replicate 80 '=' ++ "\n\n".toList)

/-- Embedding of `ConversationTracker.add_message_to_transcript`
(`eval.py` lines 35-61): the rendered entry for one message. -/
def renderEntry (n : Nat) (m : Message) : Str :=
  m.attrs.foldl addAttr (headerOf n m) ++ entryTail

/-- Whether an attribute produces at least one line in the entry:
not private, not callable and not `None` (an unreadable attribute does
produce a line). -/
def isRendered (a : Attr) : Bool :=
  !startsUnderscore a.name && !a.isCallable &&
    (match a.read with
     | AttrRead.isNone => false
     | _ => true)

/-- Specification-side rendering of one attribute, one clause of the
claim per value shape: scalars inline, a list as its length followed by
one indented line per element, a dict as an indented dump, an unreadable
attribute as an inline error note. -/
def fieldLine (a : Attr) : Str :=
  match a.read with
  | AttrRead.isNone => []
  | AttrRead.ok (PyValue.scalar s) => a.name ++ ": ".toList ++ s ++ ['\n']
  | AttrRead.ok (PyValue.pylist items) =>
      a.name ++ ": [".toList ++ natStr items.length ++ " items]\n".toList
          ++ listItemLines 0 items
  | AttrRead.ok (PyValue.pydict dump) => a.name ++ ":\n".toList ++ dump ++ ['\n']
  | AttrRead.ok (PyValue.other s) => a.name ++ ": ".toList ++ s ++ ['\n']
  | AttrRead.err e => a.name ++ ": <error accessing: ".toList ++ e ++ ">\n".toList

/-- State of the `async for message in client.receive_response()` loop of
`generate_with_sdk` (`eval.py` lines 160-185). -/
structure SessionState where
  messageCount : Nat
  transcript : List Str
  finalResult : Str
  generated : Str

/-- Inner `for block in message.content` loop (`eval.py` lines 180-185):
a block with a `text` attribute and no `id` attribute contributes its
stripped text followed by a newline, when that stripped text is
non-empty. -/
def stepBlock (g : Str) (b : ContentBlock) : Str :=
  match b.text with
  | some t =>
      if b.hasId then g
      else if stripChars t = [] then g
      else g ++ stripChars t ++ ['\n']
  | none => g

/-- The `elif` branch reading content blocks (`eval.py` lines 178-185). -/
def contentStep (st : SessionState) (m : Message) : SessionState :=
  match m.content with
  | some blocks =>
      if blocks = [] then st
      else { st with generated := blocks.foldl stepBlock st.generated }
  | none => st

/-- One iteration of the message loop (`eval.py` lines 164-185): count the
message, record its transcript entry, then either adopt a truthy result
whose stripped form is non-empty, or (only when the result attribute is
absent or falsy) collect text from content blocks. -/
def receiveLoop (st : SessionState) (m : Message) : SessionState :=
  let st1 : SessionState :=
    { st with
      messageCount := st.messageCount + 1,
      transcript := st.transcript ++ [renderEntry (st.messageCount + 1) m] }
  match m.result with
  | some r =>
      if r = [] then contentStep st1 m
      else if stripChars r = [] then st1
      else { st1 with finalResult := stripChars r }
  | none => contentStep st1 m

/-- Run the whole stream from the initial state. -/
def runStream (msgs : List Message) : SessionState :=
  msgs.foldl receiveLoop ⟨0, [], [], []⟩

def noContentSentinel : Str := "-- No content generated --".toList

/-- Embedding of `generate_with_sdk` (`eval.py` lines 160-195) restricted
to its observable outputs: the final text (lines 187-193) and the
transcript entries accumulated by the tracker. -/
def generate_with_sdk (msgs : List Message) : Str × List Str :=
  let st := runStream msgs
  (if st.finalResult ≠ [] then st.finalResult
   else if st.generated ≠ [] then stripChars st.generated
   else noContentSentinel,
   st.transcript)

/-- Python truthiness of the `result` attribute (a string): present and
non-empty. -/
def resultIsTruthy (m : Message) : Bool :=
  match m.result with
  | some r => !(r = [] : Bool)
  | none => false

/-- Specification side, claim branch (a): the stripped result value a
message contributes, when its stripped string form is non-empty. -/
def specResultOf (m : Message) : Option Str :=
  match m.result with
  | some r => if stripChars r = [] then none else some (stripChars r)
  | none => none

def specResults (msgs : List Message) : List Str :=
  msgs.filterMap specResultOf

/-- Specification side, claim branch (b): the stripped text fragment a
content block contributes, when the block is text-like
(`text` attribute, no `id` attribute) and its stripped text is
non-empty. -/
def fragOfBlock (b : ContentBlock) : Option Str :=
  match b.text with
  | some t =>
      if b.hasId then none
      else if stripChars t = [] then none
      else some (stripChars t)
  | none => none

/-- Fragments a message contributes: none at all when its result field is
truthy, otherwise its qualifying content-block texts in order. -/
def msgFrags (m : Message) : List Str :=
  if resultIsTruthy m then []
  else
    match m.content with
    | some blocks => blocks.filterMap fragOfBlock
    | none => []

def specFragments (msgs : List Message) : List Str :=
  (msgs.map msgFrags).flatten

/-- Each collected fragment followed by a newline, concatenated: the shape
the code accumulates in `generated_content`. -/
def terminated (fs : List Str) : Str :=
  (fs.map (fun f => f ++ ['\n'])).flatten

/-- Newline-joined concatenation, as the claim words it. -/
def joinNL : List Str → Str
  | [] => []
  | [f] => f
  | f :: g :: rest => f ++ '\n' :: joinNL (g :: rest)

/-- Specification-side final text, written from claim C1: the most recent
non-empty stripped result if any; else the newline-joined stripped
fragments, the whole stripped; else the sentinel. -/
def specFinalText (msgs : List Message) : Str :=
  match (specResults msgs).getLast? with
  | some r => r
  | none =>
      if specFragments msgs = [] then noContentSentinel
      else stripChars (joinNL (specFragments msgs))

/-- Transcript entries for a message list with ordinals starting at
`n + 1`. -/
def renderFrom (n : Nat) : List Message → List Str
  | [] => []
  | m :: rest => renderEntry (n + 1) m :: renderFrom (n + 1) rest

/-- Outcome of one `shutil.rmtree(path)` call.  Every failure `rmtree`
reports is an `OSError` subclass (a missing path raises
`FileNotFoundError`, which subclasses `OSError`), so that is the one
exception shape modelled. -/
inductive RmOutcome where
  | ok
  | osErr (msg : Str)
deriving DecidableEq

/-- Observable events of `cleanup_directory` (`eval.py` lines 226-241). -/
inductive CleanupEv where
  | rmAttempt (attempt : Nat)
  | retryNote (attempt : Nat)
  | sleepFor (d : Rat)
  | warnIncomplete
  | rmForced
deriving DecidableEq

structure CleanupResult where
  events : List CleanupEv
  cleaned : Bool
deriving DecidableEq

/-- The `for attempt in range(retries)` loop of `cleanup_directory`.
`fs attempt` is what `shutil.rmtree(path)` does on that attempt; `fuel`
is the number of loop iterations left, so the loop is live while
`0 < fuel` (that is, `attempt < retries`) and the `attempt < retries - 1`
test of the code reads `0 < fuel - 1`, i.e. `1 < fuel` here.  An
`osErr` outcome is caught by the `except OSError` clause; the final
forced `shutil.rmtree(path, ignore_errors=True)` raises nothing by
contract. -/
def cleanupLoop (fs : Nat → RmOutcome) (delay : Rat) :
    Nat → Nat → Except Str CleanupResult
  | _, 0 => Except.ok ⟨[], false⟩
  | attempt, fuel + 1 =>
    match fs attempt with
    | RmOutcome.ok => Except.ok ⟨[CleanupEv.rmAttempt attempt], true⟩
    | RmOutcome.osErr _ =>
        if 0 < fuel then
          match cleanupLoop fs delay (attempt + 1) fuel with
          | Except.ok r =>
              Except.ok ⟨CleanupEv.rmAttempt attempt :: CleanupEv.retryNote attempt ::
                  CleanupEv.sleepFor delay :: r.events, r.cleaned⟩
          | Except.error s => Except.error s
        else
          Except.ok ⟨[CleanupEv.rmAttempt attempt, CleanupEv.warnIncomplete,
              CleanupEv.rmForced], false⟩

/-- Embedding of `cleanup_directory(path, retries, delay)`
(`eval.py` lines 226-241), with `fs` the behaviour of `shutil.rmtree` on
each attempt.  The result is `Except.error` only if an exception escapes
the function. -/
def cleanup_directory (fs : Nat → RmOutcome) (retries : Nat) (delay : Rat) :
    Except Str CleanupResult :=
  cleanupLoop fs delay 0 retries

/-- The sleep durations appearing in a cleanup trace, in order. -/
def sleepsOf (evs : List CleanupEv) : List Rat :=
  evs.filterMap (fun e =>
    match e with
    | CleanupEv.sleepFor d => some d
    | _ => none)

/-- Expected events of `k` consecutive failed attempts starting at
attempt `a`: removal attempt, retry notice, sleep of the configured
delay, each time. -/
def retriesEvents (delay : Rat) : Nat → Nat → List CleanupEv
  | _, 0 => []
  | a, n + 1 =>
      CleanupEv.rmAttempt a :: CleanupEv.retryNote a :: CleanupEv.sleepFor delay ::
        retriesEvents delay (a + 1) n

/-- Python truthiness of an optional string (`if summary:` and friends in
`write_results`): present and non-empty. -/
def optTruthy : Option Str → Bool
  | some s => !(s = [] : Bool)
  | none => false

/-- Truthiness of `tracker and tracker.full_conversation`
(`eval.py` line 289): a tracker was passed and it recorded at least one
entry. -/
def trackerTruthy : Option (List Str) → Bool
  | some entries => !(entries = [] : Bool)
  | none => false

def transcriptFileHeader : Str :=
  ("# Full Conversation Transcript\n\n"
    ++ "This file contains the complete conversation flow with all messages, tool calls, and responses.\n\n").toList

/-- Embedding of `write_results` (`eval.py` lines 257-295): the list of
(file name, file content) pairs written, in write order. -/
def write_results (content : Str) (summary feedback response : Option Str)
    (tracker : Option (List Str)) : List (Str × Str) :=
  ("output.txt".toList, content) ::
  ((match summary with
    | some s => if s = [] then [] else [("summary.md".toList, "# Summary\n\n".toList ++ s)]
    | none => []) ++
   (match feedback with
    | some f => if f = [] then [] else [("feedback.md".toList, "# Tool Feedback\n\n".toList ++ f)]
    | none => []) ++
   (match response with
    | some r => if r = [] then [] else [("response.txt".toList, r)]
    | none => []) ++
   (match tracker with
    | some entries =>
        if entries = [] then []
        else [("transcript.md".toList, transcriptFileHeader ++ entries.flatten)]
    | none => []))

/-- Names of the files written, in order. -/
def fileNames (files : List (Str × Str)) : List Str := files.map Prod.fst

/-- Specification-side description of the files `write_results` writes:
`output.txt` always, with the full final text; `summary.md` and
`feedback.md` heading-prefixed and `response.txt` raw, each present
exactly when its section is truthy (present and non-empty);
`transcript.md` heading-prefixed, present exactly when a tracker with at
least one recorded entry was passed. -/
def specFiles (content : Str) (summary feedback response : Option Str)
    (tracker : Option (List Str)) : List (Str × Str) :=
  ("output.txt".toList, content) ::
  ((if optTruthy summary then
      [("summary.md".toList, "# Summary\n\n".toList ++ summary.getD [])] else []) ++
   (if optTruthy feedback then
      [("feedback.md".toList, "# Tool Feedback\n\n".toList ++ feedback.getD [])] else []) ++
   (if optTruthy response then [("response.txt".toList, response.getD [])] else []) ++
   (if trackerTruthy tracker then
      [("transcript.md".toList, transcriptFileHeader ++ (tracker.getD []).flatten)] else []))

/-- Steps of the `try` block of `main_async` that can raise
(`eval.py` lines 358-395): the engine call, section extraction, result
writing, and the output-directory copy. -/
inductive FailPoint where
  | generate
  | extract
  | writeResults
  | copyOut
deriving DecidableEq

/-- Process-level events of `main_async` relevant to directory state. -/
inductive MainEv where
  | chdir (d : Str)
  | cleanupCall
  | exitCode (n : Nat)
deriving DecidableEq

/-- The `except` handler of `main_async` (`eval.py` lines 397-401):
restore the original working directory, clean up the workspace, exit
non-zero. -/
def exceptHandler (orig : Str) : List MainEv :=
  [MainEv.chdir orig, MainEv.cleanupCall, MainEv.exitCode 1]

/-- The `try` block of `main_async` (`eval.py` lines 358-395) after the
initial `os.chdir(temp_dir)`: events performed before control leaves the
block, and whether it left by raising.  The engine call raises before the
restoring `os.chdir(original_cwd)` of line 368; extraction, result
writing and the output copy raise after it; on success the block also
runs `cleanup_directory` (line 384). -/
def tryBody (orig : Str) (failAt : Option FailPoint) : List MainEv × Bool :=
  if failAt = some FailPoint.generate then ([], true)
  else if failAt = some FailPoint.extract then ([MainEv.chdir orig], true)
  else if failAt = some FailPoint.writeResults then ([MainEv.chdir orig], true)
  else if failAt = some FailPoint.copyOut then ([MainEv.chdir orig], true)
  else ([MainEv.chdir orig, MainEv.cleanupCall], false)

/-- Embedding of one run of `main_async` from the `os.chdir(temp_dir)` of
line 356 onward: the working-directory switch into the workspace, the
`try` block, and either the `except` handler or the normal return. -/
def main_session (orig temp : Str) (failAt : Option FailPoint) : List MainEv :=
  let body := tryBody orig failAt
  MainEv.chdir temp ::
    (if body.2 then body.1 ++ exceptHandler orig else body.1 ++ [MainEv.exitCode 0])

/-- The process working directory after a list of events, starting from
`start`. -/
def cwdAfter (start : Str) (evs : List MainEv) : Str :=
  evs.foldl
    (fun c e =>
      match e with
      | MainEv.chdir d => d
      | _ => c) start

/-- Scan a trace and check that every workspace-cleanup call happens while
the process working directory equals `orig`. -/
def restoredBeforeCleanup (orig : Str) : Str → List MainEv → Bool
  | _, [] => true
  | _, MainEv.chdir d :: rest => restoredBeforeCleanup orig d rest
  | cur, MainEv.cleanupCall :: rest =>
      if cur = orig then restoredBeforeCleanup orig cur rest else false
  | cur, MainEv.exitCode _ :: rest => restoredBeforeCleanup orig cur rest

/-! ### Lemmas about `stripChars` and `firstOcc` -/

theorem stripChars_append_ws {c : Char} (hc : c.isWhitespace = true) :
    ∀ x : Str, stripChars (x ++ [c]) = stripChars x := by
  intro x
  induction x with
  | nil => simp [stripChars, List.dropWhile_cons, hc]
  | cons a x' ih =>
    by_cases ha : a.isWhitespace
    · simpa [stripChars, List.dropWhile_cons, ha] using ih
    · simp [stripChars, List.dropWhile_cons, ha, List.reverse_append, hc]

theorem firstOcc_isSome_iff (pat : Str) :
    ∀ s : Str, (firstOcc pat s).isSome = true ↔ ∃ i, (s.drop i).take pat.length = pat := by
  intro s
  induction s with
  | nil =>
    by_cases hp : pat = []
    · subst hp; simp [firstOcc]
    · simp [firstOcc, hp, eq_comm]
  | cons c rest ih =>
    by_cases h : (c :: rest).take pat.length = pat
    · simp only [firstOcc, if_pos h, Option.isSome_some, true_iff]
      exact ⟨0, by simpa using h⟩
    · simp only [firstOcc, if_neg h]
      have hmap : (Option.map (fun x => x + 1) (firstOcc pat rest)).isSome
          = (firstOcc pat rest).isSome := by
        cases firstOcc pat rest <;> rfl
      rw [hmap, ih]
      constructor
      · rintro ⟨i, hi⟩
        exact ⟨i + 1, by simpa [List.drop_succ_cons] using hi⟩
      · rintro ⟨i, hi⟩
        cases i with
        | zero => exact absurd (by simpa using hi) h
        | succ i => exact ⟨i, by simpa [List.drop_succ_cons] using hi⟩

theorem firstOcc_drop_isSome {pat s : Str} {k : Nat}
    (h : (firstOcc pat (s.drop k)).isSome = true) :
    (firstOcc pat s).isSome = true := by
  rw [firstOcc_isSome_iff] at h ⊢
  obtain ⟨i, hi⟩ := h
  rw [List.drop_drop] at hi
  exact ⟨k + i, hi⟩

theorem firstOcc_append {pat : Str} (hpat : pat ≠ []) :
    ∀ u w : Str, firstOcc pat (u ++ pat.dropLast) = none →
      firstOcc pat (u ++ (pat ++ w)) = some u.length := by
  intro u
  induction u with
  | nil =>
    intro w _
    cases hp : pat with
    | nil => exact absurd hp hpat
    | cons p pt =>
      have htake : ((p :: pt) ++ w).take (p :: pt).length = p :: pt :=
        List.take_left _ _
      subst hp
      simp [firstOcc, htake]
  | cons a u' ih =>
    intro w hnone
    rw [List.cons_append] at hnone
    have hlen1 : 1 ≤ pat.length := List.length_pos.mpr hpat
    have hlen : pat.length ≤ (a :: (u' ++ pat.dropLast)).length := by
      simp only [List.length_cons, List.length_append, List.length_dropLast]
      omega
    have hfull : a :: (u' ++ (pat ++ w)) =
        (a :: (u' ++ pat.dropLast)) ++ ([pat.getLast hpat] ++ w) := by
      conv_lhs => rw [← List.dropLast_concat_getLast hpat]
      simp [List.append_assoc]
    have hne : ¬ ((a :: (u' ++ (pat ++ w))).take pat.length = pat) := by
      intro hEq
      rw [hfull, List.take_append_of_le_length hlen] at hEq
      have hzero : firstOcc pat (a :: (u' ++ pat.dropLast)) = some 0 := by
        simp [firstOcc, hEq]
      rw [hzero] at hnone
      cases hnone
    have hrest : firstOcc pat (u' ++ pat.dropLast) = none := by
      by_cases htake : (a :: (u' ++ pat.dropLast)).take pat.length = pat
      · have : firstOcc pat (a :: (u' ++ pat.dropLast)) = some 0 := by
          simp [firstOcc, htake]
        rw [this] at hnone
        cases hnone
      · simp only [firstOcc, if_neg htake] at hnone
        cases hx : firstOcc pat (u' ++ pat.dropLast) with
        | none => rfl
        | some i => rw [hx] at hnone; cases hnone
    have hni := ih w hrest
    show firstOcc pat (a :: (u' ++ (pat ++ w))) = some (a :: u').length
    simp [firstOcc, hne, hni]

/-! ### The regex search equals the first-pair characterization -/

theorem searchLazy_eq (opn cls : Str) :
    ∀ s, searchLazy opn cls s = betweenFirstPair opn cls s := by
  intro s
  induction s with
  | nil =>
    by_cases hp : opn = []
    · subst hp; simp [searchLazy, tryMatchAt, betweenFirstPair, firstOcc]
    · simp [searchLazy, tryMatchAt, betweenFirstPair, firstOcc,
        (by simpa [eq_comm] using hp : ¬ ([] : Str) = opn), hp]
  | cons c rest ih =>
    by_cases hm : (c :: rest).take opn.length = opn
    · cases hcls : firstOcc cls ((c :: rest).drop opn.length) with
      | some j =>
        simp [searchLazy, tryMatchAt, hm, hcls, betweenFirstPair, firstOcc]
      | none =>
        have hrest : betweenFirstPair opn cls rest = none := by
          unfold betweenFirstPair
          cases hio : firstOcc opn rest with
          | none => simp
          | some i =>
            cases hc2 : firstOcc cls (rest.drop (i + opn.length)) with
            | none => simp [hc2]
            | some j2 =>
              exfalso
              have hsome : (firstOcc cls (((c :: rest).drop opn.length).drop (i + 1))).isSome = true := by
                rw [List.drop_drop,
                  show opn.length + (i + 1) = (i + opn.length) + 1 by omega,
                  List.drop_succ_cons, hc2]
                rfl
              have := firstOcc_drop_isSome hsome
              rw [hcls] at this
              cases this
        have hbet : betweenFirstPair opn cls (c :: rest) = none := by
          unfold betweenFirstPair
          simp [firstOcc, hm, hcls]
        have hskip : searchLazy opn cls (c :: rest) = searchLazy opn cls rest := by
          simp [searchLazy, tryMatchAt, hm, hcls]
        rw [hskip, ih, hrest, hbet]
    · have hstep : searchLazy opn cls (c :: rest) = searchLazy opn cls rest := by
        simp [searchLazy, tryMatchAt, hm]
      rw [hstep, ih]
      unfold betweenFirstPair
      simp only [firstOcc, if_neg hm]
      cases hio : firstOcc opn rest with
      | none => simp
      | some i =>
        have hdr : (c :: rest).drop (i + 1 + opn.length) = rest.drop (i + opn.length) := by
          rw [show i + 1 + opn.length = (i + opn.length) + 1 by omega, List.drop_succ_cons]
        simp [hdr]

theorem betweenFirstPair_decompose {opn cls : Str} (hopn : opn ≠ []) (hcls : cls ≠ [])
    (u c v : Str)
    (h1 : firstOcc opn (u ++ opn.dropLast) = none)
    (h2 : firstOcc cls (c ++ cls.dropLast) = none) :
    betweenFirstPair opn cls (u ++ opn ++ c ++ cls ++ v) = some c := by
  have hfo : firstOcc opn (u ++ (opn ++ (c ++ (cls ++ v)))) = some u.length :=
    firstOcc_append hopn u (c ++ (cls ++ v)) h1
  have hshape : u ++ opn ++ c ++ cls ++ v = u ++ (opn ++ (c ++ (cls ++ v))) := by
    simp [List.append_assoc]
  rw [hshape]
  have hdrop : (u ++ (opn ++ (c ++ (cls ++ v)))).drop (u.length + opn.length) =
      c ++ (cls ++ v) := by
    rw [show u ++ (opn ++ (c ++ (cls ++ v))) = (u ++ opn) ++ (c ++ (cls ++ v)) by
      simp [List.append_assoc]]
    exact List.drop_left' (by simp)
  unfold betweenFirstPair
  rw [hfo]
  show (firstOcc cls ((u ++ (opn ++ (c ++ (cls ++ v)))).drop (u.length + opn.length))).map
      (fun j => ((u ++ (opn ++ (c ++ (cls ++ v)))).drop (u.length + opn.length)).take j)
      = some c
  rw [hdrop, firstOcc_append hcls c v h2]
  simp [List.take_left' rfl]

/-- Claim C2: `extract_tagged_sections` returns, for each of the three
names, the text strictly between the first occurrence of the opening tag
and the nearest subsequent closing tag, trimmed; the section is `none`
when that delimiter pair does not appear, and the function is total, so
no error is ever raised for missing delimiters. -/
theorem extract_tagged_sections_first_pair (content : Str) :
    extract_tagged_sections content = specExtract content := by
  unfold extract_tagged_sections specExtract
  rw [searchLazy_eq, searchLazy_eq, searchLazy_eq]

/-- Claim C3: extraction of a tag's section is independent of the rest of
the text.  Whenever the text decomposes as `u ++ open ++ c ++ close ++ v`
for a tag `t`, where `t`'s own opening delimiter does not occur earlier
(inside `u` or straddling into the opening delimiter) and `t`'s closing
delimiter does not occur inside `c` (or straddling out of it), the
extracted section for `t` is exactly `stripChars c`.  `u` and `v` may
hold the other tags' blocks in any order, and may mention any tag name
as plain text. -/
theorem extract_sections_independent (t : TagName) (u c v : Str)
    (h1 : firstOcc (openTagOf t) (u ++ (openTagOf t).dropLast) = none)
    (h2 : firstOcc (closeTagOf t) (c ++ (closeTagOf t).dropLast) = none) :
    sectionOf t (extract_tagged_sections
        (u ++ openTagOf t ++ c ++ closeTagOf t ++ v)) = some (stripChars c) := by
  rw [extract_tagged_sections_first_pair]
  cases t with
  | summary =>
    have hb := @betweenFirstPair_decompose summaryOpen summaryClose
      (by decide) (by decide) u c v h1 h2
    show (betweenFirstPair summaryOpen summaryClose
        (u ++ summaryOpen ++ c ++ summaryClose ++ v)).map stripChars = some (stripChars c)
    rw [hb]
    rfl
  | feedback =>
    have hb := @betweenFirstPair_decompose feedbackOpen feedbackClose
      (by decide) (by decide) u c v h1 h2
    show (betweenFirstPair feedbackOpen feedbackClose
        (u ++ feedbackOpen ++ c ++ feedbackClose ++ v)).map stripChars = some (stripChars c)
    rw [hb]
    rfl
  | response =>
    have hb := @betweenFirstPair_decompose responseOpen responseClose
      (by decide) (by decide) u c v h1 h2
    show (betweenFirstPair responseOpen responseClose
        (u ++ responseOpen ++ c ++ responseClose ++ v)).map stripChars = some (stripChars c)
    rw [hb]
    rfl

/-- Witness for C3 at a concrete input: the feedback block is extracted
untouched although the summary block before it mentions the word
`feedback` and a response block follows. -/
theorem extract_sections_independent_witness :
    sectionOf TagName.feedback (extract_tagged_sections
        ("<summary>use feedback</summary>".toList ++ openTagOf TagName.feedback
          ++ " fb ok ".toList ++ closeTagOf TagName.feedback
          ++ "<response>r</response>".toList)) = some (stripChars " fb ok ".toList) :=
  extract_sections_independent TagName.feedback
    "<summary>use feedback</summary>".toList " fb ok ".toList
    "<response>r</response>".toList (by decide) (by decide)

/-! ### The message loop: final text and transcript -/

theorem getLastD_cons (l : List Str) (a d : Str) :
    ((a :: l).getLast?).getD d = (l.getLast?).getD a := by
  induction l generalizing a d with
  | nil => simp
  | cons b l ih => rw [List.getLast?_cons_cons, ih b d, ih b a]

theorem specResultOf_ne_nil {m : Message} {r : Str}
    (h : specResultOf m = some r) : r ≠ [] := by
  unfold specResultOf at h
  cases hr : m.result with
  | none => rw [hr] at h; cases h
  | some x =>
    rw [hr] at h
    have h2 : (if stripChars x = [] then none else some (stripChars x)) = some r := h
    by_cases hx : stripChars x = []
    · rw [if_pos hx] at h2; cases h2
    · rw [if_neg hx] at h2; cases h2; exact hx

theorem specResults_mem_ne_nil {msgs : List Message} {r : Str}
    (h : r ∈ specResults msgs) : r ≠ [] := by
  rw [specResults, List.mem_filterMap] at h
  obtain ⟨m, _, hm⟩ := h
  exact specResultOf_ne_nil hm

theorem foldl_stepBlock (blocks : List ContentBlock) :
    ∀ g : Str, blocks.foldl stepBlock g
      = g ++ terminated (blocks.filterMap fragOfBlock) := by
  induction blocks with
  | nil => intro g; simp [terminated]
  | cons b bs ih =>
    intro g
    rw [List.foldl_cons, ih]
    cases hb : b.text with
    | none => simp [stepBlock, fragOfBlock, hb, terminated]
    | some t =>
      by_cases hid : b.hasId = true
      · simp [stepBlock, fragOfBlock, hb, hid, terminated]
      · by_cases hstrip : stripChars t = []
        · simp [stepBlock, fragOfBlock, hb, hid, hstrip, terminated]
        · simp [stepBlock, fragOfBlock, hb, hid, hstrip, terminated, List.append_assoc]

theorem terminated_ne_nil {fs : List Str} (h : fs ≠ []) : terminated fs ≠ [] := by
  cases fs with
  | nil => exact absurd rfl h
  | cons f fs' => simp [terminated]

theorem terminated_eq_joinNL : ∀ fs : List Str, fs ≠ [] → terminated fs = joinNL fs ++ ['\n'] := by
  intro fs
  induction fs with
  | nil => intro h; exact absurd rfl h
  | cons f fs' ih =>
    intro _
    cases fs' with
    | nil => simp [terminated, joinNL]
    | cons g rest =>
      have hrec := ih (by simp)
      show (f ++ ['\n']) ++ terminated (g :: rest) = joinNL (f :: g :: rest) ++ ['\n']
      rw [hrec]
      simp [joinNL, List.append_assoc]

theorem runStream_fold (msgs : List Message) :
    ∀ st : SessionState, msgs.foldl receiveLoop st =
      ⟨st.messageCount + msgs.length,
       st.transcript ++ renderFrom st.messageCount msgs,
       ((specResults msgs).getLast?).getD st.finalResult,
       st.generated ++ terminated (specFragments msgs)⟩ := by
  induction msgs with
  | nil =>
    intro st
    simp [specResults, specFragments, terminated, renderFrom]
  | cons m rest ih =>
    intro st
    rw [List.foldl_cons, ih]
    have htr : renderFrom st.messageCount (m :: rest)
        = renderEntry (st.messageCount + 1) m :: renderFrom (st.messageCount + 1) rest := rfl
    cases hres : m.result with
    | some r =>
      by_cases hr0 : r = []
      · subst hr0
        have hro : specResultOf m = none := by simp [specResultOf, hres, stripChars]
        have hfr : msgFrags m
            = (match m.content with
               | some blocks => blocks.filterMap fragOfBlock
               | none => []) := by
          simp [msgFrags, resultIsTruthy, hres]
        cases hc : m.content with
        | none =>
          simp [receiveLoop, contentStep, hres, hc, htr, specResults, specFragments,
            List.filterMap_cons, hro, hfr, terminated, SessionState.mk.injEq,
            getLastD_cons, List.append_assoc]
          omega
        | some blocks =>
          by_cases hbe : blocks = []
          · subst hbe
            simp [receiveLoop, contentStep, hres, hc, htr, specResults, specFragments,
              List.filterMap_cons, hro, hfr, terminated, SessionState.mk.injEq,
              List.append_assoc]
            omega
          · simp [receiveLoop, contentStep, hres, hc, hbe, htr, specResults, specFragments,
              List.filterMap_cons, hro, hfr, foldl_stepBlock, terminated,
              SessionState.mk.injEq, List.append_assoc]
            omega
      · by_cases hstrip : stripChars r = []
        · have hro : specResultOf m = none := by simp [specResultOf, hres, hstrip]
          have hfr : msgFrags m = [] := by simp [msgFrags, resultIsTruthy, hres, hr0]
          simp [receiveLoop, hres, hr0, hstrip, htr, specResults, specFragments,
            List.filterMap_cons, hro, hfr, SessionState.mk.injEq, List.append_assoc]
          omega
        · have hro : specResultOf m = some (stripChars r) := by
            simp [specResultOf, hres, hstrip]
          have hfr : msgFrags m = [] := by simp [msgFrags, resultIsTruthy, hres, hr0]
          simp [receiveLoop, hres, hr0, hstrip, htr, specResults, specFragments,
            List.filterMap_cons, hro, hfr, SessionState.mk.injEq, getLastD_cons,
            List.append_assoc]
          omega
    | none =>
      have hro : specResultOf m = none := by simp [specResultOf, hres]
      have hfr : msgFrags m
          = (match m.content with
             | some blocks => blocks.filterMap fragOfBlock
             | none => []) := by
        simp [msgFrags, resultIsTruthy, hres]
      cases hc : m.content with
      | none =>
        simp [receiveLoop, contentStep, hres, hc, htr, specResults, specFragments,
          List.filterMap_cons, hro, hfr, terminated, SessionState.mk.injEq,
          List.append_assoc]
        omega
      | some blocks =>
        by_cases hbe : blocks = []
        · subst hbe
          simp [receiveLoop, contentStep, hres, hc, htr, specResults, specFragments,
            List.filterMap_cons, hro, hfr, terminated, SessionState.mk.injEq,
            List.append_assoc]
          omega
        · simp [receiveLoop, contentStep, hres, hc, hbe, htr, specResults, specFragments,
            List.filterMap_cons, hro, hfr, foldl_stepBlock, terminated,
            SessionState.mk.injEq, List.append_assoc]
          omega

/-- The final text computed by the message loop equals the
specification-side precedence function. -/
theorem generate_eq_spec (msgs : List Message) :
    (generate_with_sdk msgs).1 = specFinalText msgs := by
  have h := runStream_fold msgs ⟨0, [], [], []⟩
  unfold generate_with_sdk specFinalText
  simp only [runStream] at *
  rw [h]
  cases hlast : (specResults msgs).getLast? with
  | some r =>
    have hrne : r ≠ [] :=
      specResults_mem_ne_nil (List.mem_of_getLast?_eq_some hlast)
    simp [hlast, hrne]
  | none =>
    by_cases hf : specFragments msgs = []
    · simp [hlast, hf, terminated]
    · have hne := terminated_ne_nil hf
      simp [hlast, hf, hne, terminated_eq_joinNL _ hf,
        stripChars_append_ws (c := '\n') (by decide)]

/-- Claim C1: for any stream of messages, the final text of
`generate_with_sdk` follows the precedence — the most recent result value
whose stripped string form is non-empty if any; else the newline-joined
concatenation (as a whole stripped) of the stripped non-empty text
fragments of content blocks with a `text` attribute and no `id`
attribute, taken from messages without a truthy result, in arrival
order; else the sentinel. -/
theorem final_text_precedence (msgs : List Message) :
    (generate_with_sdk msgs).1 = specFinalText msgs :=
  generate_eq_spec msgs

theorem renderFrom_length : ∀ (msgs : List Message) (n : Nat),
    (renderFrom n msgs).length = msgs.length := by
  intro msgs
  induction msgs with
  | nil => intro n; rfl
  | cons m rest ih => intro n; simp [renderFrom, ih]

/-- Claim C6: the transcript holds exactly one entry per message
consumed, in arrival order, rendered with the strictly increasing
ordinals 1..N (`renderFrom 0`); its length and the message counter both
equal the number of messages; and consuming further messages only
appends entries, so the property already holds for the partial
transcript of any prefix of the stream (the case in which streaming
fails later). -/
theorem transcript_entries_in_order (msgs : List Message) :
    (runStream msgs).transcript = renderFrom 0 msgs
    ∧ ((runStream msgs).transcript).length = msgs.length
    ∧ (runStream msgs).messageCount = msgs.length
    ∧ ∀ pre post : List Message,
        (runStream (pre ++ post)).transcript
          = (runStream pre).transcript ++ renderFrom pre.length post := by
  have h := runStream_fold msgs ⟨0, [], [], []⟩
  simp only [runStream] at h ⊢
  rw [h]
  refine ⟨by simp, by simp [renderFrom_length], by simp, ?_⟩
  intro pre post
  rw [List.foldl_append]
  have hpre := runStream_fold pre ⟨0, [], [], []⟩
  rw [hpre, runStream_fold post]
  simp [renderFrom_length]

theorem addAttr_foldl (attrs : List Attr) :
    ∀ acc : Str, attrs.foldl addAttr acc
      = acc ++ ((attrs.filter isRendered).map fieldLine).flatten := by
  induction attrs with
  | nil => intro acc; simp
  | cons a rest ih =>
    intro acc
    rw [List.foldl_cons, ih]
    by_cases hb : (!startsUnderscore a.name && !a.isCallable) = true
    · cases hr : a.read with
      | isNone =>
        simp [addAttr, isRendered, hb, hr, List.filter_cons]
      | ok v =>
        cases v with
        | scalar s =>
          simp [addAttr, isRendered, hb, hr, List.filter_cons, fieldLine,
            List.append_assoc]
        | pylist items =>
          simp [addAttr, isRendered, hb, hr, List.filter_cons, fieldLine,
            List.append_assoc]
        | pydict dump =>
          simp [addAttr, isRendered, hb, hr, List.filter_cons, fieldLine,
            List.append_assoc]
        | other s =>
          simp [addAttr, isRendered, hb, hr, List.filter_cons, fieldLine,
            List.append_assoc]
      | err e =>
        simp [addAttr, isRendered, hb, hr, List.filter_cons, fieldLine,
          List.append_assoc]
    · simp [addAttr, isRendered, hb, List.filter_cons]

/-- Claim C7: a transcript entry is the header line (ordinal and message
kind), followed by exactly one rendered block per discoverable field
that is non-private, non-callable and not `None` — scalars inline, a
list as its length then one indented line per element, a dict as an
indented dump, and, for a field whose read raised, the error message
inline in its place — followed by the separator.  The rendering is a
per-field map, so an unreadable field never suppresses the other
fields' lines nor the entry itself. -/
theorem transcript_entry_structure (n : Nat) (m : Message) :
    renderEntry n m
      = headerOf n m ++ ((m.attrs.filter isRendered).map fieldLine).flatten ++ entryTail := by
  unfold renderEntry
  rw [addAttr_foldl]

/-- Claim C10: a message whose result attribute is present and truthy but
strips to the empty string contributes nothing to the final text: the
result is not adopted, and the `elif` guarding the content blocks is
skipped, so even its content-block text is ignored. -/
theorem truthy_blank_result_contributes_nothing (m : Message) (r : Str)
    (hres : m.result = some r) (hr0 : r ≠ []) (hstrip : stripChars r = []) :
    ∀ pre post : List Message,
      (generate_with_sdk (pre ++ m :: post)).1 = (generate_with_sdk (pre ++ post)).1 := by
  intro pre post
  rw [generate_eq_spec, generate_eq_spec]
  have hro : specResultOf m = none := by simp [specResultOf, hres, hstrip]
  have hfr : msgFrags m = [] := by simp [msgFrags, resultIsTruthy, hres, hr0]
  unfold specFinalText
  have h1 : specResults (pre ++ m :: post) = specResults (pre ++ post) := by
    simp [specResults, List.filterMap_append, List.filterMap_cons, hro]
  have h2 : specFragments (pre ++ m :: post) = specFragments (pre ++ post) := by
    simp [specFragments, hfr]
  rw [h1, h2]

/-- Witness for C10: a whitespace-only truthy result with a non-empty
text block underneath leaves the final text exactly as if the message
were absent. -/
theorem truthy_blank_result_contributes_nothing_witness :
    (generate_with_sdk
        [⟨"ResultMessage".toList, [], some [' '], some [⟨some "hi".toList, false⟩]⟩]).1
      = (generate_with_sdk []).1 :=
  truthy_blank_result_contributes_nothing
    ⟨"ResultMessage".toList, [], some [' '], some [⟨some "hi".toList, false⟩]⟩
    [' '] rfl (by decide) (by decide) [] []

/-! ### Cleanup retry logic -/

theorem cleanupLoop_cons (fs : Nat → RmOutcome) (delay : Rat) (attempt fuel : Nat) :
    cleanupLoop fs delay attempt (fuel + 1)
      = match fs attempt with
        | RmOutcome.ok => Except.ok ⟨[CleanupEv.rmAttempt attempt], true⟩
        | RmOutcome.osErr _ =>
            if 0 < fuel then
              match cleanupLoop fs delay (attempt + 1) fuel with
              | Except.ok r =>
                  Except.ok ⟨CleanupEv.rmAttempt attempt :: CleanupEv.retryNote attempt ::
                      CleanupEv.sleepFor delay :: r.events, r.cleaned⟩
              | Except.error s => Except.error s
            else
              Except.ok ⟨[CleanupEv.rmAttempt attempt, CleanupEv.warnIncomplete,
                  CleanupEv.rmForced], false⟩ := rfl

theorem cleanupLoop_success (fs : Nat → RmOutcome) (delay : Rat) :
    ∀ k fuel a : Nat, k < fuel → fs (a + k) = RmOutcome.ok →
      (∀ j, j < k → fs (a + j) ≠ RmOutcome.ok) →
      cleanupLoop fs delay a fuel
        = Except.ok ⟨retriesEvents delay a k ++ [CleanupEv.rmAttempt (a + k)], true⟩ := by
  intro k
  induction k with
  | zero =>
    intro fuel a hk hok _
    cases fuel with
    | zero => omega
    | succ f =>
      have hfa : fs a = RmOutcome.ok := by simpa using hok
      simp [cleanupLoop, hfa, retriesEvents]
  | succ k ih =>
    intro fuel a hk hok hfail
    cases fuel with
    | zero => omega
    | succ f =>
      have hfa : fs a ≠ RmOutcome.ok := by
        have := hfail 0 (by omega)
        simpa using this
      cases hfsa : fs a with
      | ok => exact absurd hfsa hfa
      | osErr e =>
        have hf0 : 0 < f := by omega
        have hrec := ih f (a + 1) (by omega)
          (by rw [show a + 1 + k = a + (k + 1) by omega]; exact hok)
          (fun j hj => by
            rw [show a + 1 + j = a + (j + 1) by omega]
            exact hfail (j + 1) (by omega))
        rw [show a + 1 + k = a + (k + 1) by omega] at hrec
        simp [cleanupLoop, hfsa, hf0, hrec, retriesEvents]

theorem cleanupLoop_allfail (fs : Nat → RmOutcome) (delay : Rat) :
    ∀ fuel a : Nat, 0 < fuel → (∀ j, j < fuel → fs (a + j) ≠ RmOutcome.ok) →
      cleanupLoop fs delay a fuel
        = Except.ok ⟨retriesEvents delay a (fuel - 1)
            ++ [CleanupEv.rmAttempt (a + (fuel - 1)), CleanupEv.warnIncomplete,
                CleanupEv.rmForced], false⟩ := by
  intro fuel
  induction fuel with
  | zero => intro a h; omega
  | succ f ih =>
    intro a _ hfail
    have hfa : fs a ≠ RmOutcome.ok := by
      have := hfail 0 (by omega)
      simpa using this
    cases hfsa : fs a with
    | ok => exact absurd hfsa hfa
    | osErr e =>
      cases f with
      | zero =>
        simp [cleanupLoop, hfsa, retriesEvents]
      | succ g =>
        have hrec := ih (a + 1) (by omega)
          (fun j hj => by
            rw [show a + 1 + j = a + (j + 1) by omega]
            exact hfail (j + 1) (by omega))
        simp only [Nat.add_sub_cancel] at hrec
        rw [show a + 1 + g = a + (g + 1) by omega] at hrec
        have hf0 : 0 < g + 1 := by omega
        rw [cleanupLoop_cons fs delay a (g + 1), hfsa]
        simp [hf0, hrec, retriesEvents]

theorem cleanupLoop_isOk (fs : Nat → RmOutcome) (delay : Rat) :
    ∀ fuel a : Nat, ∃ r, cleanupLoop fs delay a fuel = Except.ok r := by
  intro fuel
  induction fuel with
  | zero => intro a; exact ⟨_, rfl⟩
  | succ f ih =>
    intro a
    cases hfsa : fs a with
    | ok =>
      refine ⟨⟨[CleanupEv.rmAttempt a], true⟩, ?_⟩
      rw [cleanupLoop_cons, hfsa]
    | osErr e =>
      by_cases hf : 0 < f
      · obtain ⟨r, hr⟩ := ih (a + 1)
        refine ⟨⟨CleanupEv.rmAttempt a :: CleanupEv.retryNote a ::
            CleanupEv.sleepFor delay :: r.events, r.cleaned⟩, ?_⟩
        rw [cleanupLoop_cons, hfsa]
        simp [hf, hr]
      · refine ⟨⟨[CleanupEv.rmAttempt a, CleanupEv.warnIncomplete,
            CleanupEv.rmForced], false⟩, ?_⟩
        rw [cleanupLoop_cons, hfsa]
        simp [hf]

theorem warn_not_mem_retriesEvents (delay : Rat) :
    ∀ n a : Nat, CleanupEv.warnIncomplete ∉ retriesEvents delay a n := by
  intro n
  induction n with
  | zero => intro a; simp [retriesEvents]
  | succ n ih => intro a; simp [retriesEvents, ih (a + 1)]

theorem forced_not_mem_retriesEvents (delay : Rat) :
    ∀ n a : Nat, CleanupEv.rmForced ∉ retriesEvents delay a n := by
  intro n
  induction n with
  | zero => intro a; simp [retriesEvents]
  | succ n ih => intro a; simp [retriesEvents, ih (a + 1)]

/-- Counterexample to C4 as stated: when every removal attempt fails with
`retries = 3` and the default delay of one second, the trace sleeps
twice for exactly the same duration — the delays between successive
attempts are `[1, 1]`, which is not an increasing sequence (the code
passes the constant `delay` to `time.sleep` every time and never grows
it). -/
theorem cleanup_delays_not_increasing :
    cleanup_directory (fun _ => RmOutcome.osErr "busy".toList) 3 1
      = Except.ok ⟨[CleanupEv.rmAttempt 0, CleanupEv.retryNote 0, CleanupEv.sleepFor 1,
          CleanupEv.rmAttempt 1, CleanupEv.retryNote 1, CleanupEv.sleepFor 1,
          CleanupEv.rmAttempt 2, CleanupEv.warnIncomplete, CleanupEv.rmForced], false⟩
    ∧ sleepsOf [CleanupEv.rmAttempt 0, CleanupEv.retryNote 0, CleanupEv.sleepFor 1,
          CleanupEv.rmAttempt 1, CleanupEv.retryNote 1, CleanupEv.sleepFor 1,
          CleanupEv.rmAttempt 2, CleanupEv.warnIncomplete, CleanupEv.rmForced] = [1, 1]
    ∧ ¬ List.Chain' (· < ·) [(1 : Rat), 1] := by
  refine ⟨rfl, rfl, ?_⟩
  simp

/-- Claim C4 (amended: the delay between successive attempts is the
constant configured delay, not an increasing one): a removal that
succeeds at attempt `k` within the budget yields `k` retry rounds, each
sleeping the same configured delay, then the successful attempt — with
neither the forced fallback nor the cleanup warning; only when every
attempt up to the final one fails does the trace end with the warning
and the forced ignore-errors removal, returning normally (the failure
indicator, not an exception). -/
theorem cleanup_retry_policy (fs : Nat → RmOutcome) (retries : Nat) (delay : Rat) :
    (∀ k, k < retries → fs k = RmOutcome.ok → (∀ j, j < k → fs j ≠ RmOutcome.ok) →
       cleanup_directory fs retries delay
         = Except.ok ⟨retriesEvents delay 0 k ++ [CleanupEv.rmAttempt k], true⟩
       ∧ CleanupEv.warnIncomplete ∉ retriesEvents delay 0 k ++ [CleanupEv.rmAttempt k]
       ∧ CleanupEv.rmForced ∉ retriesEvents delay 0 k ++ [CleanupEv.rmAttempt k])
    ∧ (0 < retries → (∀ j, j < retries → fs j ≠ RmOutcome.ok) →
       cleanup_directory fs retries delay
         = Except.ok ⟨retriesEvents delay 0 (retries - 1)
             ++ [CleanupEv.rmAttempt (retries - 1), CleanupEv.warnIncomplete,
                 CleanupEv.rmForced], false⟩) := by
  constructor
  · intro k hk hok hfail
    have h := cleanupLoop_success fs delay k retries 0 hk (by simpa using hok)
      (fun j hj => by simpa using hfail j hj)
    simp only [Nat.zero_add] at h
    refine ⟨h, ?_, ?_⟩
    · simp [warn_not_mem_retriesEvents]
    · simp [forced_not_mem_retriesEvents]
  · intro hr hfail
    have h := cleanupLoop_allfail fs delay retries 0 hr
      (fun j hj => by simpa using hfail j hj)
    simpa using h

/-- Witness for C4 (amended) at a concrete input: the first attempt
fails, the second succeeds; the trace is one retry round then the
successful removal, with no warning and no forced fallback. -/
theorem cleanup_retry_policy_witness :
    cleanup_directory (fun n => if n < 1 then RmOutcome.osErr "busy".toList else RmOutcome.ok) 3 1
      = Except.ok ⟨[CleanupEv.rmAttempt 0, CleanupEv.retryNote 0, CleanupEv.sleepFor 1,
          CleanupEv.rmAttempt 1], true⟩
    ∧ CleanupEv.warnIncomplete ∉ ([CleanupEv.rmAttempt 0, CleanupEv.retryNote 0,
        CleanupEv.sleepFor 1, CleanupEv.rmAttempt 1] : List CleanupEv)
    ∧ CleanupEv.rmForced ∉ ([CleanupEv.rmAttempt 0, CleanupEv.retryNote 0,
        CleanupEv.sleepFor 1, CleanupEv.rmAttempt 1] : List CleanupEv) := by
  have h := (cleanup_retry_policy
      (fun n => if n < 1 then RmOutcome.osErr "busy".toList else RmOutcome.ok) 3 1).1
    1 (by decide) (by decide)
    (fun j hj => by
      have hj0 : j = 0 := by omega
      subst hj0
      decide)
  simpa [retriesEvents] using h

/-- Counterexample to C5 as stated: calling `cleanup_directory` on a path
that no longer exists makes every `shutil.rmtree(path)` raise
`FileNotFoundError` (an `OSError`), so the call exhausts all retries,
prints the cleanup warning and returns `False` — the incomplete-cleanup
indicator, not the success indicator `True`.  Nothing is raised, but the
call is not treated as success. -/
theorem cleanup_missing_path_counterexample :
    cleanup_directory (fun _ => RmOutcome.osErr "FileNotFoundError".toList) 3 1
      = Except.ok ⟨[CleanupEv.rmAttempt 0, CleanupEv.retryNote 0, CleanupEv.sleepFor 1,
          CleanupEv.rmAttempt 1, CleanupEv.retryNote 1, CleanupEv.sleepFor 1,
          CleanupEv.rmAttempt 2, CleanupEv.warnIncomplete, CleanupEv.rmForced], false⟩ := rfl

/-- Claim C5 (amended): `cleanup_directory` never lets an exception
escape — every removal failure is an `OSError` and is caught, for any
attempt outcomes, so calling it twice, or on a path that no longer
exists, never raises; but a call on an already-removed path is not
treated as success: it exhausts the retries and returns normally with
the incomplete indicator `false` and the cleanup warning in its
trace. -/
theorem cleanup_never_raises (fs : Nat → RmOutcome) (retries : Nat) (delay : Rat) :
    (∃ res, cleanup_directory fs retries delay = Except.ok res)
    ∧ (0 < retries → (∀ j, j < retries → fs j ≠ RmOutcome.ok) →
        ∃ res, cleanup_directory fs retries delay = Except.ok res
          ∧ res.cleaned = false ∧ CleanupEv.warnIncomplete ∈ res.events) := by
  constructor
  · exact cleanupLoop_isOk fs delay retries 0
  · intro hr hfail
    have h := cleanupLoop_allfail fs delay retries 0 hr
      (fun j hj => by simpa using hfail j hj)
    refine ⟨⟨retriesEvents delay 0 (retries - 1)
        ++ [CleanupEv.rmAttempt (retries - 1), CleanupEv.warnIncomplete,
            CleanupEv.rmForced], false⟩, ?_, rfl, ?_⟩
    · simpa using h
    · simp

/-- Witness for C5 (amended) at a concrete input: on a missing path with
three attempts, the call returns normally with `cleaned = false` and the
warning recorded. -/
theorem cleanup_never_raises_witness :
    ∃ res, cleanup_directory (fun _ => RmOutcome.osErr "enoent".toList) 3 1 = Except.ok res
      ∧ res.cleaned = false ∧ CleanupEv.warnIncomplete ∈ res.events :=
  (cleanup_never_raises (fun _ => RmOutcome.osErr "enoent".toList) 3 1).2 (by decide)
    (fun _ _ h => RmOutcome.noConfusion h)

/-! ### Result writing and directory restoration -/

/-- Counterexample to C8 as stated: on the reachable final text
`<summary>   </summary>`, extraction yields an empty (but extracted)
summary section; `write_results` then skips `summary.md` because the
Python `if summary:` test is on truthiness, not on presence — so
`summary.md` is not written although a summary section was extracted. -/
theorem write_results_empty_summary_counterexample :
    extract_tagged_sections "<summary>   </summary>".toList = (some [], none, none)
    ∧ fileNames (write_results "<summary>   </summary>".toList (some []) none none (some []))
      = ["output.txt".toList] :=
  ⟨rfl, rfl⟩

/-- Claim C8 (amended: presence of each optional artifact requires the
section to be truthy, i.e. extracted and non-empty, not merely
extracted): `write_results` always writes `output.txt` with the full
final text; it writes `summary.md` and `feedback.md` heading-prefixed
and `response.txt` raw exactly when the corresponding section is present
and non-empty; and it writes `transcript.md` exactly when a tracker with
at least one recorded entry was passed. -/
theorem write_results_files (content : Str) (s f r : Option Str)
    (tr : Option (List Str)) :
    write_results content s f r tr = specFiles content s f r tr := by
  rcases s with _ | s <;> rcases f with _ | f <;> rcases r with _ | r <;>
    rcases tr with _ | tr <;>
    simp [write_results, specFiles, optTruthy, trackerTruthy, ite_not]

/-- Claim C9: on every exit path of `main_async` — success, engine
failure, extraction failure, result-writing failure, or output-copy
failure — the final working directory is the original pre-session one,
and every workspace-cleanup call (including the one on the fatal path)
happens only after the working directory has been restored to the
original. -/
theorem cwd_restored_all_paths (orig temp : Str) (failAt : Option FailPoint) :
    cwdAfter orig (main_session orig temp failAt) = orig
    ∧ restoredBeforeCleanup orig orig (main_session orig temp failAt) = true := by
  rcases failAt with _ | fp
  · simp [main_session, tryBody, exceptHandler, cwdAfter, restoredBeforeCleanup]
  · cases fp <;>
      simp [main_session, tryBody, exceptHandler, cwdAfter, restoredBeforeCleanup]

end OperatorEval
